import Mathlib

/-!
Verification of the outline-extraction pipeline in `outline_extractor.py`.

The embedding starts from the normalized per-page line data (`pages_content`,
the output of `parse_pdf_enhanced`, whose PDF decoding itself is delegated to
the external PyMuPDF library): a document is a `List (List PyLine)` indexed by
page number.  Python dicts gaining keys over the run (feature engineering,
classifier predictions, level assignment) are modelled with `Option` fields
that start as `none`.  Floating point coordinates are modelled as exact
rationals; the concrete inputs used below stay on decimally exact values where
float and rational arithmetic agree.  The external LightGBM classifier is
modelled as an opaque per-row scoring function, faithful to the documented
batch contract (one probability per feature row, in row order).
-/

/-- Bounding box `(x0, y0, x1, y1)` of a text line. -/
structure Bbox where
  x0 : ℚ
  y0 : ℚ
  x1 : ℚ
  y1 : ℚ
deriving DecidableEq

/-- One normalized text line, as produced by `parse_pdf_enhanced`, together
with the optional dict keys that later pipeline stages may add
(`pattern_match`, `is_centered`, `indentation`, `font_family_encoded`,
`is_heading_prediction`, `level`).  A key that the Python dict does not hold
yet is `none`. -/
structure PyLine where
  text : String
  size : ℤ
  fontFamily : String
  bold : Bool
  pageNum : ℕ
  bbox : Bbox
  patternMatch : Option ℤ
  isCentered : Option ℤ
  indentation : Option ℚ
  fontFamilyEncoded : Option ℤ
  isHeadingPrediction : Option ℤ
  level : Option String
deriving DecidableEq

/-- Builds a bare line record with no derived dict keys yet. -/
def mkLine (t : String) (sz : ℤ) (ff : String) (b : Bool) (pn : ℕ)
    (x0 y0 x1 y1 : ℚ) : PyLine :=
  ⟨t, sz, ff, b, pn, ⟨x0, y0, x1, y1⟩, none, none, none, none, none, none⟩

/-- One parsed table-of-contents entry; `level` is added by the indent-ranking
pass, so it starts out as `none`. -/
structure TocEntry where
  text : String
  page : ℤ
  indent : ℚ
  level : Option String
deriving DecidableEq

/-- One final outline item `{level, text, page}`. -/
structure OutlineEntry where
  level : String
  text : String
  page : ℤ
deriving DecidableEq

/-- The JSON-serializable payload `{title, outline}` that
`process_document_definitive` dumps. -/
structure DocResult where
  title : String
  outline : List OutlineEntry
deriving DecidableEq

/-- The six feature columns handed to the classifier, in the source's order
`['size', 'pattern_match', 'bold', 'is_centered', 'indentation',
'font_family_encoded']`. -/
structure FeatureRow where
  size : ℤ
  pattern_match : ℤ
  bold : Bool
  is_centered : ℤ
  indentation : ℚ
  font_family_encoded : ℤ
deriving DecidableEq

/-- The external pre-trained classifier, modelled as a per-row probability. -/
abbrev Model := FeatureRow → ℚ

/-! Python string helpers, mirrored on the `List Char` model of `String`. -/

/-- Python `str.strip()` (ASCII whitespace suffices for this pipeline). -/
def pyStrip (s : String) : String :=
  ⟨((s.data.dropWhile Char.isWhitespace).reverse.dropWhile Char.isWhitespace).reverse⟩

/-- Python `str.lower()` restricted to ASCII letters. -/
def pyLower (s : String) : String :=
  ⟨s.data.map (fun c => if 'A' ≤ c ∧ c ≤ 'Z' then Char.ofNat (c.toNat + 32) else c)⟩

/-- Helper for `wordCount`: counts maximal non-whitespace runs; the flag says
whether the scan is currently inside a word. -/
def countWordsAux : List Char → Bool → ℕ
  | [], _ => 0
  | c :: cs, inW =>
    if c.isWhitespace then countWordsAux cs false
    else (if inW then 0 else 1) + countWordsAux cs true

/-- Python `len(s.split())`: number of whitespace-separated words. -/
def wordCount (s : String) : ℕ := countWordsAux s.data false

/-- Whether a pattern occurs as a contiguous subsequence of a char list;
models Python's `in` on strings. -/
def containsSeq (p : List Char) : List Char → Bool
  | [] => List.isPrefixOf p []
  | c :: rest => List.isPrefixOf p (c :: rest) || containsSeq p rest

/-- Models `'```' in text`. -/
def hasTripleBacktick (s : String) : Bool := containsSeq "```".data s.data

/-- Models `re.search(r'[a-zA-Z]', text)`: some ASCII letter occurs. -/
def hasAsciiLetter (s : String) : Bool := s.data.any Char.isAlpha

/-- Models `re.match(r"^(?:(\d{1,2}(?:\.\d{1,2})*))", text)`: since every part
after the first one-or-two-digit group is optional and the match is not
end-anchored, the regex succeeds exactly when the text starts with a digit. -/
def startsWithDigit (s : String) : Bool :=
  match s.data with
  | [] => false
  | c :: _ => c.isDigit

/-- Lexicographic comparison of char lists by code point, as Python compares
strings. -/
def charListLe : List Char → List Char → Bool
  | [], _ => true
  | _ :: _, [] => false
  | a :: as, b :: bs => if a < b then true else if b < a then false else charListLe as bs

/-- Python `<=` on strings. -/
def strLe (a b : String) : Prop := charListLe a.data b.data = true

instance : DecidableRel strLe := fun a b =>
  inferInstanceAs (Decidable (charListLe a.data b.data = true))

/-- Python `max` over a list of ints (the caller guards non-emptiness). -/
def listMaxZ : List ℤ → ℤ
  | [] => 0
  | a :: as => as.foldl max a

/-- First index of `x` in a list, modelling a Python
`{key: i for i, key in enumerate(keys)}` lookup. -/
def idxOf? [DecidableEq α] (x : α) : List α → Option ℕ
  | [] => none
  | a :: l => if a = x then some 0 else (idxOf? x l).map (· + 1)

/-- First index satisfying a predicate, modelling
`next(i for i, line in enumerate(...) if ...)`. -/
def findIdxP? (p : α → Bool) : List α → Option ℕ
  | [] => none
  | a :: l => if p a then some 0 else (findIdxP? p l).map (· + 1)

/-! TOC detector/parser: `find_and_parse_toc`. -/

/-- The fixed synonym list from the source. -/
def TOC_SYNONYMS : List String :=
  ["table of contents", "contents", "toc", "outline", "index", "summary", "document map"]

/-- Models `any(line['text'].lower().strip() in TOC_SYNONYMS for line in lines[:3])`. -/
def isHeaderPage (lines : List PyLine) : Bool :=
  (lines.take 3).any (fun l => TOC_SYNONYMS.contains (pyStrip (pyLower l.text)))

/-- A dot-or-whitespace leader character (the regex class `\s*\.|\s`). -/
def isDotSpace (c : Char) : Bool := c == '.' || c.isWhitespace

/-- Digits to the number Python's `int` parses. -/
def digitsToNat (ds : List Char) : ℕ :=
  ds.foldl (fun a c => 10 * a + (c.toNat - '0'.toNat)) 0

/-- Models `re.match(r'^(.*?)(?:\s*\.|\s){2,}(\d+)$', text)`.  The trailing
`(\d+)$` takes the maximal final digit run, the greedy leader
`(?:\s*\.|\s){2,}` then takes the maximal run of dots/whitespace directly
before it (it matches exactly the dot/whitespace strings of length ≥ 2), and
the lazy `(.*?)` group is whatever precedes; the match fails when the digit
run is empty or the leader run is shorter than 2.  Returns
`(group(1), int(group(2)))`. -/
def tocMatch (s : String) : Option (String × ℕ) :=
  let r := s.data.reverse
  let num := r.takeWhile Char.isDigit
  if num.isEmpty then none
  else
    let rest := r.dropWhile Char.isDigit
    let mid := rest.takeWhile isDotSpace
    if mid.length < 2 then none
    else some (⟨(rest.dropWhile isDotSpace).reverse⟩, digitsToNat num.reverse)

/-- Models `re.sub(r'^\d+[\.\s]*', '', text)`: when the text starts with a
digit, the leading digit run and the dots/whitespace straight after it are
removed; otherwise the text is unchanged. -/
def stripLeadingNumeric (s : String) : String :=
  match s.data with
  | [] => s
  | c :: _ =>
    if c.isDigit then ⟨(s.data.dropWhile Char.isDigit).dropWhile (fun d => isDotSpace d)⟩
    else s

/-- Per-line step of the TOC scan: on a regex match, build
`{'text': ..., 'page': int(group(2)) - 1, 'indent': bbox[0]}`. -/
def parseTocLine (l : PyLine) : Option TocEntry :=
  match tocMatch l.text with
  | none => none
  | some (g1, num) =>
    some ⟨stripLeadingNumeric (pyStrip g1), (num : ℤ) - 1, l.bbox.x0, none⟩

/-- Entries collected from the 5-page window starting at the header page:
`for p_num in range(page_num, min(page_num + 5, len(pages_content)))`. -/
def collectWindow (pages : List (List PyLine)) (start : ℕ) : List TocEntry :=
  (((pages.drop start).take 5).flatten).filterMap parseTocLine

/-- The distinct indent values of the collected entries, sorted ascending:
`sorted(list(set([e['indent'] for e in toc_entries])))`. -/
def sortedIndentsOf (es : List TocEntry) : List ℚ :=
  List.insertionSort (· ≤ ·) ((es.map (·.indent)).dedup)

/-- Level tag for an indent: the position of the indent among the distinct
sorted indents gives `H{i+1}`; the (unreachable) dict default is `'H1'`. -/
def levelForIndent (ds : List ℚ) (d : ℚ) : String :=
  match idxOf? d ds with
  | some i => "H" ++ toString (i + 1)
  | none => "H1"

/-- Models the level-assignment loop of `find_and_parse_toc` (lines 62-66). -/
def assignTocLevels (es : List TocEntry) : List TocEntry :=
  let ds := sortedIndentsOf es
  es.map (fun e => { e with level := some (levelForIndent ds e.indent) })

/-- Models `find_and_parse_toc` (the accumulator across header pages is
equivalent to returning the window of the first header page whose window
yields at least one entry). -/
def find_and_parse_toc (pages : List (List PyLine)) : Option (List TocEntry) :=
  let n := pages.length
  let maxScan := n / 5 + 3
  match (List.range (min maxScan n)).find?
      (fun p => isHeaderPage (pages.getD p []) && !(collectWindow pages p).isEmpty) with
  | some p => some (assignTocLevels (collectWindow pages p))
  | none => none

/-! Feature engineering: `engineer_features_layout`. -/

/-- Models `sorted(list(set([line['font_family'] for line in all_lines])))`. -/
def sortedFontFamilies (all : List PyLine) : List String :=
  List.insertionSort strLe ((all.map (·.fontFamily)).dedup)

/-- Models `font_map.get(font, -1)`. -/
def fontMapOf (all : List PyLine) : String → ℤ := fun f =>
  match idxOf? f (sortedFontFamilies all) with
  | some i => (i : ℤ)
  | none => -1

/-- Models `pages_content[line['page_num']][0]['bbox'][2] if
pages_content[line['page_num']] else 1`. -/
def pageWidthOf (pages : List (List PyLine)) (p : ℕ) : ℚ :=
  match (pages.getD p []).head? with
  | some f => f.bbox.x1
  | none => 1

/-- The per-line mutation inside the `engineer_features_layout` loop. -/
def annotateLine (pages : List (List PyLine)) (fm : String → ℤ) (l : PyLine) : PyLine :=
  let pw := pageWidthOf pages l.pageNum
  { l with
    patternMatch := some (if startsWithDigit l.text then 1 else 0),
    isCentered := some (if (0.4 : ℚ) < (l.bbox.x0 + l.bbox.x1) / 2 / pw ∧
                           (l.bbox.x0 + l.bbox.x1) / 2 / pw < (0.6 : ℚ) then 1 else 0),
    indentation := some l.bbox.x0,
    fontFamilyEncoded := some (fm l.fontFamily) }

/-- The per-page view of `pages_content` after `engineer_features_layout`
mutated every line dict in place. -/
def engineerPages (pages : List (List PyLine)) : List (List PyLine) :=
  let fm := fontMapOf pages.flatten
  pages.map (List.map (annotateLine pages fm))

/-- Models `engineer_features_layout`: the flattened, feature-annotated line
list, or `[]` when the document has no lines at all. -/
def engineer_features_layout (pages : List (List PyLine)) : List PyLine :=
  if pages.flatten.isEmpty then [] else (engineerPages pages).flatten

/-- The feature columns `df[features_for_model]` reads off a line record
(after annotation every key is present; the `getD` defaults are dead). -/
def featureRowOf (l : PyLine) : FeatureRow :=
  ⟨l.size, l.patternMatch.getD 0, l.bold, l.isCentered.getD 0,
   l.indentation.getD 0, l.fontFamilyEncoded.getD 0⟩

/-! Heading stitcher: `stitch_multiline_headings`. -/

/-- Models `sorted(page_lines.values(), key=lambda x: x['bbox'][1])` (stable,
like Python's sort). -/
def sortByY0 (ls : List PyLine) : List PyLine :=
  List.insertionSort (fun a b => a.bbox.y0 ≤ b.bbox.y0) ls

/-- The absorption test of the stitcher's `while` loop: word count < 7, not
bold, size within 1 point of the heading's, and
`next_line.get('is_heading_prediction', 0)` is not 1. -/
def absorbCond (hsize : ℤ) (l : PyLine) : Bool :=
  decide (wordCount l.text < 7) && !l.bold && decide ((l.size - hsize).natAbs ≤ 1) &&
    !(decide (l.isHeadingPrediction.getD 0 = 1))

/-- The greedy `while` loop: the maximal prefix of the following lines that
passes `absorbCond`; the loop breaks at the first failure. -/
def absorbRun (hsize : ℤ) : List PyLine → List PyLine
  | [] => []
  | l :: ls => if absorbCond hsize l then l :: absorbRun hsize ls else []

/-- The stitcher's main loop, with the mutable `processed_bboxes` set threaded
through explicitly as a list of `(page_num, bbox)` pairs. -/
def stitchGo (m : ℕ → List PyLine) : List (ℕ × Bbox) → List PyLine → List PyLine
  | _, [] => []
  | processed, h :: hs =>
    if (h.pageNum, h.bbox) ∈ processed then stitchGo m processed hs
    else
      let sorted := sortByY0 (m h.pageNum)
      match findIdxP? (fun l => decide (l.bbox = h.bbox)) sorted with
      | none => h :: stitchGo m processed hs
      | some i =>
        let absorbed := absorbRun h.size (sorted.drop (i + 1))
        let merged := absorbed.foldl (fun t l => t ++ " " ++ l.text) h.text
        { h with text := merged } ::
          stitchGo m (processed ++ absorbed.map (fun l => (l.pageNum, l.bbox))) hs

/-- Models `stitch_multiline_headings(headings, all_lines_map)`; the per-page
bbox-keyed dict is abstracted to its value list per page. -/
def stitch_multiline_headings (headings : List PyLine) (m : ℕ → List PyLine) : List PyLine :=
  stitchGo m [] headings

/-- No line after this heading on its page can be absorbed: the line after the
heading's position either does not exist or fails `absorbCond` (or the
heading's bbox is not found at all). -/
def noAbsorbableNeighbor (m : ℕ → List PyLine) (h : PyLine) : Bool :=
  let sorted := sortByY0 (m h.pageNum)
  match findIdxP? (fun l => decide (l.bbox = h.bbox)) sorted with
  | none => true
  | some i =>
    match (sorted.drop (i + 1)).head? with
    | none => true
    | some l' => !(absorbCond h.size l')

/-- Models the dict comprehension `{tuple(line['bbox']): line for line in
lines}` followed by `.values()`: keys keep first-occurrence order, a repeated
bbox key keeps the last line. -/
def dictInsert (acc : List PyLine) (l : PyLine) : List PyLine :=
  if acc.any (fun a => decide (a.bbox = l.bbox)) then
    acc.map (fun a => if a.bbox = l.bbox then l else a)
  else acc ++ [l]

/-- Value list of the bbox-keyed dict of one page. -/
def dictValuesByBbox (ls : List PyLine) : List PyLine := ls.foldl dictInsert []

/-- Models `all_lines_map` built on line 183 from the (mutated)
`pages_content`. -/
def allLinesMap (pages' : List (List PyLine)) : ℕ → List PyLine :=
  fun p => dictValuesByBbox (pages'.getD p [])

/-! Sanity filter: `nlp_sanity_check`. -/

/-- The keep-condition of `nlp_sanity_check`. -/
def keepHeading (h : PyLine) : Bool :=
  hasAsciiLetter h.text && !hasTripleBacktick h.text && decide (wordCount h.text < 25)

/-- Models `nlp_sanity_check`. -/
def nlp_sanity_check (headings : List PyLine) : List PyLine :=
  headings.filter keepHeading

/-! Level assigner: `assign_levels_by_font_size`. -/

/-- Descending size order, `sorted(..., reverse=True)`. -/
def sizeGe (a b : ℤ) : Prop := b ≤ a

instance : DecidableRel sizeGe := fun a b => inferInstanceAs (Decidable (b ≤ a))

instance : IsTotal ℤ sizeGe := ⟨fun a b => (le_total b a).imp id id⟩

instance : IsTrans ℤ sizeGe := ⟨fun _ _ _ h1 h2 => le_trans h2 h1⟩

/-- Models `sorted(list(set([h['size'] for h in headings])), reverse=True)`. -/
def sortedSizesDesc (hs : List PyLine) : List ℤ :=
  List.insertionSort sizeGe ((hs.map (·.size)).dedup)

/-- Models `size_map.get(h['size'], 'H3')` where `size_map` ranks the top 3
distinct sizes. -/
def levelForSize (ds3 : List ℤ) (sz : ℤ) : String :=
  match idxOf? sz ds3 with
  | some i => "H" ++ toString (i + 1)
  | none => "H3"

/-- Models `assign_levels_by_font_size`. -/
def assign_levels_by_font_size (hs : List PyLine) : List PyLine :=
  if hs.isEmpty then []
  else
    let ds3 := (sortedSizesDesc hs).take 3
    hs.map (fun h => { h with level := some (levelForSize ds3 h.size) })

/-! Pipeline orchestrator: `process_document_definitive`. -/

/-- Models the title derivation on lines 159/181: the page-0 lines at the
page-0 maximum font size, space-joined, else `"Untitled"`. -/
def computeTitle (pages : List (List PyLine)) : String :=
  let p0 := pages.getD 0 []
  if p0.isEmpty then "Untitled"
  else
    let m := listMaxZ (p0.map (·.size))
    String.intercalate " " ((p0.filter (fun l => decide (l.size = m))).map (·.text))

/-- Ordering of outline entries by target page. -/
def entryPageLe (a b : OutlineEntry) : Prop := a.page ≤ b.page

instance : DecidableRel entryPageLe := fun a b => inferInstanceAs (Decidable (a.page ≤ b.page))

instance : IsTotal OutlineEntry entryPageLe := ⟨fun a b => (le_total a.page b.page).imp id id⟩

instance : IsTrans OutlineEntry entryPageLe := ⟨fun _ _ _ h1 h2 => le_trans h1 h2⟩

/-- The engineered lines with the thresholded prediction column attached:
`df['is_heading_prediction'] = (predictions > 0.5).astype(int)`.  Only the
DataFrame records receive the column; the dicts inside `pages_content` do
not. -/
def mlPredictedLines (pages : List (List PyLine)) (model : Model) : List PyLine :=
  (engineer_features_layout pages).map
    (fun l => { l with
      isHeadingPrediction := some (if model (featureRowOf l) > (0.5 : ℚ) then 1 else 0) })

/-- Models `df[df['is_heading_prediction'] == 1].to_dict('records')`. -/
def headingCandidates (pages : List (List PyLine)) (model : Model) : List PyLine :=
  (mlPredictedLines pages model).filter (fun l => decide (l.isHeadingPrediction = some 1))

/-- The stitching step as wired in the pipeline: the candidates against the
bbox map built from the mutated `pages_content` (whose lines carry features
but no `is_heading_prediction` key). -/
def mlStitched (pages : List (List PyLine)) (model : Model) : List PyLine :=
  stitch_multiline_headings (headingCandidates pages model) (allLinesMap (engineerPages pages))

/-- Levels then sanity filter, in the source's order. -/
def mlCleanOutline (pages : List (List PyLine)) (model : Model) : List PyLine :=
  nlp_sanity_check (assign_levels_by_font_size (mlStitched pages model))

/-- Models the `final_output` list built on lines 191-197 (before sorting);
the `level` key is always present after `assign_levels_by_font_size`, so the
`getD` default is dead. -/
def mlFinalOutput (pages : List (List PyLine)) (model : Model) : List OutlineEntry :=
  (mlCleanOutline pages model).map (fun h => ⟨h.level.getD "", h.text, (h.pageNum : ℤ)⟩)

/-- The classifier-path outline in the order the pipeline produced it, before
the final page sort; empty for the two recoverable error payloads. -/
def mlPresort (pages : List (List PyLine)) (model? : Option Model) : List OutlineEntry :=
  match model? with
  | none => []
  | some model =>
    if (engineer_features_layout pages).isEmpty then [] else mlFinalOutput pages model

/-- The classifier (`ML_FALLBACK`) branch of the orchestrator, lines 164-200. -/
def mlBranch (pages : List (List PyLine)) (model? : Option Model) : DocResult :=
  match model? with
  | none => ⟨"Error: ML Model not provided for inference.", []⟩
  | some model =>
    if (engineer_features_layout pages).isEmpty then ⟨"Could not parse document", []⟩
    else ⟨computeTitle pages, List.insertionSort entryPageLe (mlFinalOutput pages model)⟩

/-- Maps a TOC entry to the emitted `{level, text, page}` dict; the `level`
key is always present after `assignTocLevels`, so the `getD` default is
dead. -/
def toOutlineEntry (e : TocEntry) : OutlineEntry := ⟨e.level.getD "", e.text, e.page⟩

/-- Models `process_document_definitive` (up to JSON serialization): the TOC
branch is taken iff the parse returned a truthy list with more than 4
entries. -/
def process_document_definitive (pages : List (List PyLine)) (model? : Option Model) :
    DocResult :=
  match find_and_parse_toc pages with
  | some l =>
    if 4 < l.length then ⟨computeTitle pages, l.map toOutlineEntry⟩
    else mlBranch pages model?
  | none => mlBranch pages model?

/-- Spec-side rendering (for comparison against the source) of the claimed
text cleanup "label text is trimmed and any leading numeric prefix (e.g.
\"1.2 \") is stripped": the whole dotted numeric marker and the whitespace
after it are removed. -/
def stripNumericPrefixSpec (s : String) : String :=
  ⟨(s.data.dropWhile (fun c => c.isDigit || c == '.')).dropWhile Char.isWhitespace⟩

/-- The `(text, page, indent)` triple that the parser derives from a line, if
the line matches the TOC entry pattern. -/
def tocFieldsOfLine (l : PyLine) : Option (String × ℤ × ℚ) :=
  match tocMatch l.text with
  | none => none
  | some (g1, num) =>
    some (stripLeadingNumeric (pyStrip g1), (num : ℤ) - 1, l.bbox.x0)

/-! Concrete documents and models used to instantiate the theorems below. -/

/-- A one-page document whose TOC yields 5 entries. -/
def tocDoc5 : List (List PyLine) :=
  [[mkLine "Contents" 12 "F" false 0 0 0 100 10,
    mkLine "Alpha .. 2" 12 "F" false 0 0 10 100 20,
    mkLine "Beta .. 3" 12 "F" false 0 0 20 100 30,
    mkLine "Gamma .. 4" 12 "F" false 0 0 30 100 40,
    mkLine "Delta .. 5" 12 "F" false 0 0 40 100 50,
    mkLine "Epsilon .. 6" 12 "F" false 0 0 50 100 60]]

/-- The parse of `tocDoc5`. -/
def tocDoc5Entries : List TocEntry :=
  [⟨"Alpha", 1, 0, some "H1"⟩, ⟨"Beta", 2, 0, some "H1"⟩, ⟨"Gamma", 3, 0, some "H1"⟩,
   ⟨"Delta", 4, 0, some "H1"⟩, ⟨"Epsilon", 5, 0, some "H1"⟩]

/-- The same document with only 4 TOC entries. -/
def tocDoc4 : List (List PyLine) :=
  [[mkLine "Contents" 12 "F" false 0 0 0 100 10,
    mkLine "Alpha .. 2" 12 "F" false 0 0 10 100 20,
    mkLine "Beta .. 3" 12 "F" false 0 0 20 100 30,
    mkLine "Gamma .. 4" 12 "F" false 0 0 30 100 40,
    mkLine "Delta .. 5" 12 "F" false 0 0 40 100 50]]

/-- The parse of `tocDoc4`. -/
def tocDoc4Entries : List TocEntry :=
  [⟨"Alpha", 1, 0, some "H1"⟩, ⟨"Beta", 2, 0, some "H1"⟩, ⟨"Gamma", 3, 0, some "H1"⟩,
   ⟨"Delta", 4, 0, some "H1"⟩]

/-- A two-line document for the classifier path; with the constant-1 model
both lines are predicted headings. -/
def mlDoc2 : List (List PyLine) :=
  [[mkLine "Alpha" 12 "F" false 0 0 0 100 10,
    mkLine "Beta" 12 "F" false 0 0 20 100 30]]

/-- A classifier that scores every row 1 (heading). -/
def constOneModel : Model := fun _ => 1

/-- A classifier that scores every row 0 (non-heading). -/
def constZeroModel : Model := fun _ => 0

/-- A document whose TOC lists its 5 entries out of page order. -/
def tocDocUnsorted : List (List PyLine) :=
  [[mkLine "Contents" 12 "F" false 0 0 0 100 10,
    mkLine "Alpha .. 6" 12 "F" false 0 0 10 100 20,
    mkLine "Beta .. 2" 12 "F" false 0 0 20 100 30,
    mkLine "Gamma .. 3" 12 "F" false 0 0 30 100 40,
    mkLine "Delta .. 4" 12 "F" false 0 0 40 100 50,
    mkLine "Epsilon .. 5" 12 "F" false 0 0 50 100 60]]

/-- The parse of `tocDocUnsorted`: pages 5, 1, 2, 3, 4. -/
def tocDocUnsortedEntries : List TocEntry :=
  [⟨"Alpha", 5, 0, some "H1"⟩, ⟨"Beta", 1, 0, some "H1"⟩, ⟨"Gamma", 2, 0, some "H1"⟩,
   ⟨"Delta", 3, 0, some "H1"⟩, ⟨"Epsilon", 4, 0, some "H1"⟩]

/-- A two-page classifier-path document (one line per page). -/
def mlDocTwoPages : List (List PyLine) :=
  [[mkLine "Alpha" 12 "F" false 0 0 0 100 10],
   [mkLine "Beta" 11 "F" false 1 0 0 100 10]]

/-- A document with pages but no lines at all. -/
def emptyDoc : List (List PyLine) := [[], []]

/-- TOC entries with two distinct indents, for the level-monotonicity claim. -/
def tocIndentSample : List TocEntry :=
  [⟨"A", 0, 10, none⟩, ⟨"B", 1, 20, none⟩, ⟨"C", 2, 10, none⟩]

/-- A TOC page carrying a dotted numeric prefix on its single entry. -/
def tocDocDotted : List (List PyLine) :=
  [[mkLine "Contents" 12 "F" false 0 0 0 100 10,
    mkLine "1.2 Overview .... 3" 12 "F" false 0 10 10 200 20]]

/-- The single entry `tocDocDotted` parses to. -/
def tocDocDottedEntry : TocEntry := ⟨"2 Overview", 2, 10, some "H1"⟩

/-- A single stitched heading whose only neighbor is bold (not absorbable). -/
def stitchedHead : PyLine := mkLine "Head" 12 "F" false 0 0 0 100 10

/-- A bold neighbor line below `stitchedHead`. -/
def boldNeighbor : PyLine := mkLine "Tail" 12 "F" true 0 0 20 100 30

/-- The page map holding `stitchedHead` and its bold neighbor. -/
def stitchMapSample : ℕ → List PyLine := fun p =>
  if p = 0 then [stitchedHead, boldNeighbor] else []

/-- Headings with the spec's five distinct font sizes 24, 20, 18, 14, 12. -/
def fiveSizesHeadings : List PyLine :=
  [mkLine "A" 24 "F" false 0 0 0 100 10,
   mkLine "B" 20 "F" false 0 0 20 100 30,
   mkLine "C" 18 "F" false 0 0 40 100 50,
   mkLine "D" 14 "F" false 0 0 60 100 70,
   mkLine "E" 12 "F" false 0 0 80 100 90]

/-- A page whose second line's midpoint sits at exactly 40% of the page
width. -/
def centeringDoc : List (List PyLine) :=
  [[mkLine "Alpha" 12 "F" false 0 0 0 10 1,
    mkLine "Beta" 12 "F" false 0 2 5 6 6]]

/-- The annotation of `centeringDoc`'s first line. -/
def centeringDocLine1 : PyLine :=
  { mkLine "Alpha" 12 "F" false 0 0 0 10 1 with
    patternMatch := some 0, isCentered := some 1,
    indentation := some 0, fontFamilyEncoded := some 0 }

attribute [local semireducible] Rat.add Rat.mul Rat.inv Rat.sub Rat.ofScientific

/-! Helper lemmas. -/

theorem idxOf?_eq_none_iff [DecidableEq α] (x : α) (l : List α) :
    idxOf? x l = none ↔ x ∉ l := by
  induction l with
  | nil => simp [idxOf?]
  | cons a l ih =>
    by_cases h : a = x
    · subst h; simp [idxOf?]
    · simp [idxOf?, h, Option.map_eq_none', ih, Ne.symm h]

theorem idxOf?_lt_length [DecidableEq α] {x : α} {l : List α} {i : ℕ}
    (h : idxOf? x l = some i) : i < l.length := by
  induction l generalizing i with
  | nil => simp [idxOf?] at h
  | cons a l ih =>
    by_cases ha : a = x
    · simp [idxOf?, ha] at h
      simp only [List.length_cons]
      omega
    · simp only [idxOf?, if_neg ha, Option.map_eq_some'] at h
      obtain ⟨j, hj, rfl⟩ := h
      have := ih hj
      simp only [List.length_cons]
      omega

theorem idxOf?_getElem_of_nodup [DecidableEq α] {l : List α} (hnd : l.Nodup)
    (i : ℕ) (hi : i < l.length) : idxOf? l[i] l = some i := by
  induction l generalizing i with
  | nil => simp at hi
  | cons a l ih =>
    cases i with
    | zero => simp [idxOf?]
    | succ j =>
      have hj : j < l.length := by simpa using hi
      have hne : a ≠ l[j] := by
        intro he
        exact (List.nodup_cons.mp hnd).1 (he ▸ List.getElem_mem hj)
      simp [idxOf?, hne, ih (List.nodup_cons.mp hnd).2 j hj]

theorem sortedIndentsOf_nodup (es : List TocEntry) : (sortedIndentsOf es).Nodup :=
  (List.perm_insertionSort _ _).symm.nodup (List.nodup_dedup _)

theorem sortedIndentsOf_sorted (es : List TocEntry) :
    List.Sorted (· ≤ ·) (sortedIndentsOf es) :=
  List.sorted_insertionSort _ _

theorem sortedIndentsOf_sorted_lt (es : List TocEntry) :
    List.Sorted (· < ·) (sortedIndentsOf es) :=
  ((sortedIndentsOf_sorted es).and (sortedIndentsOf_nodup es)).imp
    (fun h => lt_of_le_of_ne h.1 h.2)

theorem mem_sortedIndentsOf {es : List TocEntry} {e : TocEntry} (he : e ∈ es) :
    e.indent ∈ sortedIndentsOf es :=
  ((List.perm_insertionSort _ _).mem_iff).mpr
    (List.mem_dedup.mpr (List.mem_map_of_mem _ he))

theorem assignTocLevels_mem {es : List TocEntry} {e : TocEntry}
    (he : e ∈ assignTocLevels es) :
    e.level = some (levelForIndent (sortedIndentsOf es) e.indent) ∧
      e.indent ∈ sortedIndentsOf es := by
  simp only [assignTocLevels] at he
  obtain ⟨e0, he0, rfl⟩ := List.mem_map.mp he
  exact ⟨rfl, show e0.indent ∈ sortedIndentsOf es from mem_sortedIndentsOf he0⟩

/-- Claim C4: in the TOC parser's level assignment, the distinct indent
values are strictly increasing, entries sharing an indent share a level, the
`i`-th distinct indent (ascending) receives `H{i+1}`, and with exactly two
distinct indents only `H1` and `H2` occur. -/
theorem toc_indent_level_monotone (es : List TocEntry) (_hne : es ≠ []) :
    List.Sorted (· < ·) (sortedIndentsOf es) ∧
    (∀ e1 ∈ assignTocLevels es, ∀ e2 ∈ assignTocLevels es,
      e1.indent = e2.indent → e1.level = e2.level) ∧
    (∀ e ∈ assignTocLevels es, ∀ i : ℕ, ∀ hi : i < (sortedIndentsOf es).length,
      e.indent = (sortedIndentsOf es)[i] → e.level = some ("H" ++ toString (i + 1))) ∧
    ((sortedIndentsOf es).length = 2 →
      ∀ e ∈ assignTocLevels es, e.level = some "H1" ∨ e.level = some "H2") := by
  refine ⟨sortedIndentsOf_sorted_lt es, ?_, ?_, ?_⟩
  · intro e1 h1 e2 h2 hind
    rw [(assignTocLevels_mem h1).1, (assignTocLevels_mem h2).1, hind]
  · intro e he i hi hind
    rw [(assignTocLevels_mem he).1, levelForIndent, hind,
      idxOf?_getElem_of_nodup (sortedIndentsOf_nodup es) i hi]
  · intro hlen e he
    obtain ⟨hlev, hmem⟩ := assignTocLevels_mem he
    obtain ⟨i, hi, hget⟩ := List.mem_iff_getElem.mp hmem
    rw [hlev, levelForIndent, ← hget,
      idxOf?_getElem_of_nodup (sortedIndentsOf_nodup es) i hi]
    rw [hlen] at hi
    interval_cases i
    · exact Or.inl rfl
    · exact Or.inr rfl

/-- Witness for C4 at a concrete entry list with indents 10, 20, 10. -/
theorem toc_indent_level_monotone_witness :
    List.Sorted (· < ·) (sortedIndentsOf tocIndentSample) ∧
    (assignTocLevels tocIndentSample).map (fun e => e.level) =
      [some "H1", some "H2", some "H1"] :=
  ⟨(toc_indent_level_monotone tocIndentSample (by decide)).1, by decide⟩

theorem sortedSizesDesc_nodup (hs : List PyLine) : (sortedSizesDesc hs).Nodup :=
  (List.perm_insertionSort _ _).symm.nodup (List.nodup_dedup _)

theorem sortedSizesDesc_sorted (hs : List PyLine) :
    List.Sorted sizeGe (sortedSizesDesc hs) :=
  List.sorted_insertionSort _ _

theorem sortedSizesDesc_sorted_gt (hs : List PyLine) :
    List.Sorted (fun a b : ℤ => b < a) (sortedSizesDesc hs) :=
  ((sortedSizesDesc_sorted hs).and (sortedSizesDesc_nodup hs)).imp
    (fun h => lt_of_le_of_ne h.1 (Ne.symm h.2))

theorem assign_levels_mem {hs : List PyLine} {h' : PyLine} (hne : hs ≠ [])
    (hm : h' ∈ assign_levels_by_font_size hs) :
    h'.level = some (levelForSize ((sortedSizesDesc hs).take 3) h'.size) ∧
      h'.size ∈ sortedSizesDesc hs := by
  unfold assign_levels_by_font_size at hm
  rw [if_neg (by simp [hne])] at hm
  obtain ⟨h0, hh0, rfl⟩ := List.mem_map.mp hm
  refine ⟨rfl, ?_⟩
  show h0.size ∈ sortedSizesDesc hs
  exact ((List.perm_insertionSort _ _).mem_iff).mpr
    (List.mem_dedup.mpr (List.mem_map_of_mem _ hh0))

/-- Claim C8: on the classifier path the distinct rounded sizes are strictly
descending; a heading whose size is the `i`-th largest distinct size
(`i < 3`) gets level `H{i+1}`, one whose size is outside the top 3 distinct
sizes gets `H3`, and no level beyond `H3` is ever produced. -/
theorem level_saturation (hs : List PyLine) (hne : hs ≠ []) :
    List.Sorted (fun a b : ℤ => b < a) (sortedSizesDesc hs) ∧
    ∀ h' ∈ assign_levels_by_font_size hs,
      (∀ i : ℕ, ∀ hi : i < (sortedSizesDesc hs).length, i < 3 →
        h'.size = (sortedSizesDesc hs)[i] → h'.level = some ("H" ++ toString (i + 1))) ∧
      (h'.size ∉ (sortedSizesDesc hs).take 3 → h'.level = some "H3") ∧
      (h'.level = some "H1" ∨ h'.level = some "H2" ∨ h'.level = some "H3") := by
  refine ⟨sortedSizesDesc_sorted_gt hs, ?_⟩
  intro h' hm
  obtain ⟨hlev, _⟩ := assign_levels_mem hne hm
  have hnd3 : ((sortedSizesDesc hs).take 3).Nodup :=
    (List.take_sublist _ _).nodup (sortedSizesDesc_nodup hs)
  refine ⟨?_, ?_, ?_⟩
  · intro i hi hi3 hsz
    have hi' : i < ((sortedSizesDesc hs).take 3).length := by
      simp only [List.length_take]
      omega
    have hg : ((sortedSizesDesc hs).take 3)[i] = (sortedSizesDesc hs)[i] :=
      List.getElem_take _
    rw [hlev, levelForSize, hsz, ← hg, idxOf?_getElem_of_nodup hnd3 i hi']
  · intro hout
    rw [hlev, levelForSize, (idxOf?_eq_none_iff _ _).mpr hout]
  · rw [hlev, levelForSize]
    cases hidx : idxOf? h'.size ((sortedSizesDesc hs).take 3) with
    | none => exact Or.inr (Or.inr rfl)
    | some i =>
      have hlt : i < ((sortedSizesDesc hs).take 3).length := idxOf?_lt_length hidx
      have hle : ((sortedSizesDesc hs).take 3).length ≤ 3 := List.length_take_le _ _
      have hi3 : i < 3 := lt_of_lt_of_le hlt hle
      interval_cases i
      · exact Or.inl rfl
      · exact Or.inr (Or.inl rfl)
      · exact Or.inr (Or.inr rfl)

/-- Witness for C8 at the spec's example sizes 24, 20, 18, 14, 12. -/
theorem level_saturation_witness :
    List.Sorted (fun a b : ℤ => b < a) (sortedSizesDesc fiveSizesHeadings) ∧
    (assign_levels_by_font_size fiveSizesHeadings).map (fun h => h.level) =
      [some "H1", some "H2", some "H3", some "H3", some "H3"] :=
  ⟨(level_saturation fiveSizesHeadings (by decide)).1, by decide⟩

/-- Claim C9: the sanity filter keeps exactly the entries whose text has an
ASCII letter, no triple-backtick, and fewer than 25 words, and it is
order-preserving (the output is a sublist of the input). -/
theorem sanity_filter_characterization (hs : List PyLine) :
    (nlp_sanity_check hs).Sublist hs ∧
    ∀ h : PyLine, h ∈ nlp_sanity_check hs ↔
      h ∈ hs ∧ (∃ c ∈ h.text.data, c.isAlpha = true) ∧
        hasTripleBacktick h.text = false ∧ wordCount h.text < 25 := by
  refine ⟨List.filter_sublist hs, ?_⟩
  intro h
  simp [nlp_sanity_check, List.mem_filter, keepHeading, hasAsciiLetter,
    List.any_eq_true, Bool.and_eq_true, Bool.not_eq_true', and_assoc]

theorem absorbRun_eq_nil {hsize : ℤ} {ls : List PyLine}
    (h : ∀ l' ∈ ls.head?, absorbCond hsize l' = false) :
    absorbRun hsize ls = [] := by
  cases ls with
  | nil => rfl
  | cons l r =>
    have := h l (by simp)
    simp [absorbRun, this]

/-- Claim C7: when no heading in the list has an absorbable next line in the
page map (the situation after a completed stitching pass), re-running the
stitcher leaves every entry's text unchanged. -/
theorem stitch_idempotent (hs : List PyLine) (m : ℕ → List PyLine)
    (hno : ∀ h ∈ hs, noAbsorbableNeighbor m h = true) :
    (stitch_multiline_headings hs m).map (fun h => h.text) = hs.map (fun h => h.text) := by
  unfold stitch_multiline_headings
  induction hs with
  | nil => rfl
  | cons h t ih =>
    have hh := hno h (List.mem_cons_self h t)
    have ht : ∀ x ∈ t, noAbsorbableNeighbor m x = true :=
      fun x hx => hno x (List.mem_cons_of_mem _ hx)
    rw [stitchGo]
    rw [if_neg (by simp)]
    cases hidx : findIdxP? (fun l => decide (l.bbox = h.bbox)) (sortByY0 (m h.pageNum)) with
    | none =>
      simp only [hidx, List.map_cons]
      rw [ih ht]
    | some i =>
      have habs : absorbRun h.size ((sortByY0 (m h.pageNum)).drop (i + 1)) = [] := by
        refine absorbRun_eq_nil ?_
        intro l' hl'
        have hh2 : (match ((sortByY0 (m h.pageNum)).drop (i + 1)).head? with
            | none => true
            | some l2 => !absorbCond h.size l2) = true := by
          simpa only [noAbsorbableNeighbor, hidx] using hh
        cases hd : ((sortByY0 (m h.pageNum)).drop (i + 1)).head? with
        | none => rw [hd] at hl'; simp at hl'
        | some l2 =>
          rw [hd] at hh2 hl'
          simp only [Option.mem_def, Option.some.injEq] at hl'
          subst hl'
          simpa using hh2
      simp only [hidx, habs, List.map_nil, List.foldl_nil, List.append_nil, List.map_cons]
      rw [ih ht]

/-- Witness for C7: one stitched heading whose only neighbor is bold. -/
theorem stitch_idempotent_witness :
    (∀ h ∈ [stitchedHead], noAbsorbableNeighbor stitchMapSample h = true) ∧
    (stitch_multiline_headings [stitchedHead] stitchMapSample).map (fun h => h.text) =
      [stitchedHead].map (fun h => h.text) :=
  ⟨by decide, stitch_idempotent [stitchedHead] stitchMapSample (by decide)⟩

theorem filter_orderedInsert (a : OutlineEntry) (l : List OutlineEntry) (p : ℤ) :
    (List.orderedInsert entryPageLe a l).filter (fun e => decide (e.page = p)) =
      if a.page = p then a :: l.filter (fun e => decide (e.page = p))
      else l.filter (fun e => decide (e.page = p)) := by
  induction l with
  | nil =>
    by_cases hap : a.page = p <;> simp [List.orderedInsert, List.filter, hap]
  | cons b t ih =>
    by_cases hab : entryPageLe a b
    · by_cases hap : a.page = p <;>
        simp [List.orderedInsert, if_pos hab, List.filter_cons, hap]
    · have hba : b.page < a.page := lt_of_not_le hab
      by_cases hap : a.page = p
      · have hbp : ¬ b.page = p := by omega
        simp [List.orderedInsert, if_neg hab, List.filter_cons, hbp, ih, hap]
      · by_cases hbp : b.page = p <;>
          simp [List.orderedInsert, if_neg hab, List.filter_cons, hbp, ih, hap]

theorem filter_insertionSort (l : List OutlineEntry) (p : ℤ) :
    (List.insertionSort entryPageLe l).filter (fun e => decide (e.page = p)) =
      l.filter (fun e => decide (e.page = p)) := by
  induction l with
  | nil => rfl
  | cons a t ih =>
    rw [List.insertionSort, filter_orderedInsert, ih, List.filter_cons]
    by_cases hap : a.page = p <;> simp [hap]

theorem process_eq_mlBranch {pages : List (List PyLine)} (model? : Option Model)
    (hsmall : ∀ l, find_and_parse_toc pages = some l → l.length ≤ 4) :
    process_document_definitive pages model? = mlBranch pages model? := by
  unfold process_document_definitive
  cases hf : find_and_parse_toc pages with
  | none => rfl
  | some l =>
    have hle := hsmall l hf
    show (if 4 < l.length then (⟨computeTitle pages, l.map toOutlineEntry⟩ : DocResult)
        else mlBranch pages model?) = mlBranch pages model?
    rw [if_neg (by omega)]

/-- Counterexample to C3 as stated: a trusted TOC whose printed page numbers
are out of order is emitted in parse order, so the final outline is not
sorted by ascending page. -/
theorem final_outline_not_always_sorted :
    (process_document_definitive tocDocUnsorted none).outline.map (fun e => e.page) =
      [5, 1, 2, 3, 4] ∧
    ¬ List.Sorted entryPageLe (process_document_definitive tocDocUnsorted none).outline := by
  exact ⟨by decide, by decide⟩

/-- Claim C3 (amended): on the classifier path the final outline is sorted by
ascending page and ties keep the pipeline's pre-sort (document) order; on the
accepted-TOC path the outline is exactly the TOC entries in parse order,
which need not be page-sorted. -/
theorem outline_order_amended (pages : List (List PyLine)) (model? : Option Model) :
    ((∀ l, find_and_parse_toc pages = some l → l.length ≤ 4) →
      List.Sorted entryPageLe (process_document_definitive pages model?).outline ∧
      ∀ p : ℤ,
        (process_document_definitive pages model?).outline.filter (fun e => decide (e.page = p)) =
          (mlPresort pages model?).filter (fun e => decide (e.page = p))) ∧
    (∀ l, find_and_parse_toc pages = some l → 4 < l.length →
      (process_document_definitive pages model?).outline = l.map toOutlineEntry) := by
  constructor
  · intro hsmall
    rw [process_eq_mlBranch model? hsmall]
    cases model? with
    | none => exact ⟨List.sorted_nil, fun p => rfl⟩
    | some model =>
      simp only [mlBranch, mlPresort]
      by_cases hemp : (engineer_features_layout pages).isEmpty
      · simp only [if_pos hemp]
        exact ⟨List.sorted_nil, fun p => trivial⟩
      · simp only [if_neg hemp]
        exact ⟨List.sorted_insertionSort _ _, fun p => filter_insertionSort _ p⟩
  · intro l hf hlen
    unfold process_document_definitive
    rw [hf]
    show (if 4 < l.length then (⟨computeTitle pages, l.map toOutlineEntry⟩ : DocResult)
        else mlBranch pages model?).outline = l.map toOutlineEntry
    rw [if_pos hlen]

/-- Witness for C3 (amended): concrete classifier-path and TOC-path
instances. -/
theorem outline_order_amended_witness :
    List.Sorted entryPageLe (process_document_definitive mlDocTwoPages (some constOneModel)).outline ∧
    (process_document_definitive mlDocTwoPages (some constOneModel)).outline.filter
        (fun e => decide (e.page = 0)) =
      (mlPresort mlDocTwoPages (some constOneModel)).filter (fun e => decide (e.page = 0)) ∧
    (process_document_definitive tocDocUnsorted none).outline =
      tocDocUnsortedEntries.map toOutlineEntry := by
  have hml := (outline_order_amended mlDocTwoPages (some constOneModel)).1 ?hsmall
  · exact ⟨hml.1, hml.2 0,
      (outline_order_amended tocDocUnsorted none).2 tocDocUnsortedEntries (by decide) (by decide)⟩
  case hsmall =>
    intro l hl
    rw [show find_and_parse_toc mlDocTwoPages = none from by decide] at hl
    exact Option.noConfusion hl

/-- Claim C1: the orchestrator emits the TOC-derived outline exactly when the
TOC parser returned a list with more than 4 entries; with at most 4 entries
(or no TOC) it falls through to the classifier branch. -/
theorem toc_acceptance_dispatch (pages : List (List PyLine)) (model? : Option Model) :
    (∀ l, find_and_parse_toc pages = some l →
      (4 < l.length →
        process_document_definitive pages model? =
          ⟨computeTitle pages, l.map toOutlineEntry⟩) ∧
      (l.length ≤ 4 →
        process_document_definitive pages model? = mlBranch pages model?)) ∧
    (find_and_parse_toc pages = none →
      process_document_definitive pages model? = mlBranch pages model?) := by
  constructor
  · intro l hf
    constructor
    · intro hlen
      unfold process_document_definitive
      rw [hf]
      show (if 4 < l.length then (⟨computeTitle pages, l.map toOutlineEntry⟩ : DocResult)
          else mlBranch pages model?) = ⟨computeTitle pages, l.map toOutlineEntry⟩
      rw [if_pos hlen]
    · intro hlen
      exact process_eq_mlBranch model? (fun l' hl' => by
        rw [hf] at hl'
        cases hl'
        exact hlen)
  · intro hf
    unfold process_document_definitive
    rw [hf]

/-- Witness for C1: a 5-entry TOC is accepted, a 4-entry TOC falls through. -/
theorem toc_acceptance_dispatch_witness :
    find_and_parse_toc tocDoc5 = some tocDoc5Entries ∧ 4 < tocDoc5Entries.length ∧
    process_document_definitive tocDoc5 none =
      ⟨computeTitle tocDoc5, tocDoc5Entries.map toOutlineEntry⟩ ∧
    find_and_parse_toc tocDoc4 = some tocDoc4Entries ∧ tocDoc4Entries.length ≤ 4 ∧
    process_document_definitive tocDoc4 none = mlBranch tocDoc4 none := by
  refine ⟨by decide, by decide, ?_, by decide, by decide, ?_⟩
  · exact ((toc_acceptance_dispatch tocDoc5 none).1 tocDoc5Entries (by decide)).1 (by decide)
  · exact ((toc_acceptance_dispatch tocDoc4 none).1 tocDoc4Entries (by decide)).2 (by decide)

theorem getD_eq_nil_of_all_nil {pages : List (List PyLine)}
    (hall : ∀ L ∈ pages, L = []) (p : ℕ) : pages.getD p [] = [] := by
  rcases Nat.lt_or_ge p pages.length with hlt | hge
  · rw [List.getD_eq_getElem?_getD, List.getElem?_eq_getElem hlt]
    exact hall _ (List.getElem_mem hlt)
  · rw [List.getD_eq_getElem?_getD, List.getElem?_eq_none hge]
    rfl

theorem find_toc_none_of_no_lines {pages : List (List PyLine)}
    (h : pages.flatten = []) : find_and_parse_toc pages = none := by
  have hall : ∀ L ∈ pages, L = [] := List.flatten_eq_nil_iff.mp h
  have hfind : (List.range (min (pages.length / 5 + 3) pages.length)).find?
      (fun p => isHeaderPage (pages.getD p []) && !(collectWindow pages p).isEmpty) = none := by
    rw [List.find?_eq_none]
    intro p _
    rw [getD_eq_nil_of_all_nil hall p]
    simp [isHeaderPage]
  simp only [find_and_parse_toc, hfind]

/-- Claim C5: the two recoverable classifier-path conditions return their
fixed payloads (and, the pipeline being a total function, never raise): with
no model the error payload, and with a model but no parsed lines the
could-not-parse payload. -/
theorem recoverable_payloads (pages : List (List PyLine)) (model : Model) :
    ((∀ l, find_and_parse_toc pages = some l → l.length ≤ 4) →
      process_document_definitive pages none =
        ⟨"Error: ML Model not provided for inference.", []⟩) ∧
    (pages.flatten = [] →
      process_document_definitive pages (some model) = ⟨"Could not parse document", []⟩) := by
  constructor
  · intro hsmall
    rw [process_eq_mlBranch none hsmall]
    rfl
  · intro hempty
    rw [process_eq_mlBranch (some model) (fun l hl => by
      rw [find_toc_none_of_no_lines hempty] at hl
      exact Option.noConfusion hl)]
    show (if (engineer_features_layout pages).isEmpty
        then (⟨"Could not parse document", []⟩ : DocResult)
        else ⟨computeTitle pages, List.insertionSort entryPageLe (mlFinalOutput pages model)⟩) =
      ⟨"Could not parse document", []⟩
    rw [if_pos]
    unfold engineer_features_layout
    rw [if_pos (by simp [hempty])]
    rfl

/-- Witness for C5: a two-page document with no lines at all. -/
theorem recoverable_payloads_witness :
    process_document_definitive emptyDoc none =
      ⟨"Error: ML Model not provided for inference.", []⟩ ∧
    process_document_definitive emptyDoc (some constZeroModel) =
      ⟨"Could not parse document", []⟩ :=
  ⟨(recoverable_payloads emptyDoc constZeroModel).1 (fun l hl => by
      rw [show find_and_parse_toc emptyDoc = none from by decide] at hl
      exact Option.noConfusion hl),
   (recoverable_payloads emptyDoc constZeroModel).2 (by decide)⟩

/-- Counterexample to C6 as stated: on the matched label "1.2 Overview" the
code removes only the digit run "1" and the dot after it, leaving
"2 Overview", while the claimed removal of the whole numeric prefix "1.2 "
would leave "Overview". -/
theorem toc_numeric_prefix_cex :
    find_and_parse_toc tocDocDotted = some [tocDocDottedEntry] ∧
    tocDocDottedEntry.text = "2 Overview" ∧
    (tocMatch "1.2 Overview .... 3").map (fun g => pyStrip g.1) = some "1.2 Overview" ∧
    stripNumericPrefixSpec "1.2 Overview" = "Overview" ∧
    ("2 Overview" : String) ≠ "Overview" := by
  refine ⟨by decide, by decide, by decide, by decide, by decide⟩

/-- Claim C6 (amended): every entry the TOC parser returns is derived from
some matched document line by exactly the source's formulas — text is
`group(1)` trimmed with the leading digit run plus following dots/whitespace
removed (a dotted prefix such as "1.2" loses only "1."), page is the trailing
integer minus 1, indent is the line's `bbox` x0. -/
theorem toc_entry_fields (pages : List (List PyLine)) (lres : List TocEntry)
    (hf : find_and_parse_toc pages = some lres) :
    ∀ e ∈ lres, (e.text, e.page, e.indent) ∈ pages.flatten.filterMap tocFieldsOfLine := by
  intro e he
  have hfind : ∃ p, lres = assignTocLevels (collectWindow pages p) := by
    simp only [find_and_parse_toc] at hf
    cases hfd : (List.range (min (pages.length / 5 + 3) pages.length)).find?
        (fun p => isHeaderPage (pages.getD p []) && !(collectWindow pages p).isEmpty) with
    | none => rw [hfd] at hf; exact Option.noConfusion hf
    | some p =>
      rw [hfd] at hf
      exact ⟨p, (Option.some.inj hf).symm⟩
  obtain ⟨p, rfl⟩ := hfind
  simp only [assignTocLevels] at he
  obtain ⟨e0, he0, rfl⟩ := List.mem_map.mp he
  obtain ⟨line, hline, hparse⟩ := List.mem_filterMap.mp he0
  have hlm : line ∈ pages.flatten := by
    obtain ⟨L, hL, hlineL⟩ := List.mem_flatten.mp hline
    exact List.mem_flatten.mpr
      ⟨L, List.drop_subset _ _ (List.take_subset _ _ hL), hlineL⟩
  refine List.mem_filterMap.mpr ⟨line, hlm, ?_⟩
  unfold parseTocLine at hparse
  unfold tocFieldsOfLine
  cases htm : tocMatch line.text with
  | none => rw [htm] at hparse; exact Option.noConfusion hparse
  | some g =>
    obtain ⟨g1, num⟩ := g
    rw [htm] at hparse
    have he0 : e0 = ⟨stripLeadingNumeric (pyStrip g1), (num : ℤ) - 1, line.bbox.x0, none⟩ :=
      (Option.some.inj hparse).symm
    subst he0
    rfl

/-- Witness for C6: the concrete entry of `tocDocDotted` is derived from a
matched line of the document. -/
theorem toc_entry_fields_witness :
    (tocDocDottedEntry.text, tocDocDottedEntry.page, tocDocDottedEntry.indent) ∈
      tocDocDotted.flatten.filterMap tocFieldsOfLine :=
  toc_entry_fields tocDocDotted [tocDocDottedEntry] (by decide) tocDocDottedEntry (by decide)

/-- Counterexample to C10 as stated: the second line of `centeringDoc` has
midpoint ratio exactly 2/5, inside the claimed closed band [0.4, 0.6], yet
its `is_centered` is 0 — the code tests the open band. -/
theorem centering_closed_band_cex :
    (engineer_features_layout centeringDoc).map
        (fun l => (l.isCentered, (l.bbox.x0 + l.bbox.x1) / 2 / pageWidthOf centeringDoc l.pageNum)) =
      [(some 1, 1/2), (some 0, 2/5)] ∧
    (0.4 : ℚ) ≤ 2/5 ∧ (2/5 : ℚ) ≤ 0.6 := by
  refine ⟨by decide, by decide, by decide⟩

/-- Claim C10 (amended): for every line the feature engineer emits,
`is_centered` is 1 exactly when the line's midpoint over the page width
(first line's right edge, or 1 on an empty page) lies strictly between 0.4
and 0.6. -/
theorem centering_open_band (pages : List (List PyLine)) (l' : PyLine)
    (hmem : l' ∈ engineer_features_layout pages) :
    l'.isCentered = some 1 ↔
      ((0.4 : ℚ) < (l'.bbox.x0 + l'.bbox.x1) / 2 / pageWidthOf pages l'.pageNum ∧
       (l'.bbox.x0 + l'.bbox.x1) / 2 / pageWidthOf pages l'.pageNum < (0.6 : ℚ)) := by
  unfold engineer_features_layout at hmem
  by_cases hemp : pages.flatten.isEmpty
  · rw [if_pos hemp] at hmem
    exact absurd hmem (by simp)
  · rw [if_neg hemp] at hmem
    obtain ⟨L, hL, hl'⟩ := List.mem_flatten.mp hmem
    simp only [engineerPages] at hL
    obtain ⟨L0, _, rfl⟩ := List.mem_map.mp hL
    obtain ⟨l0, _, rfl⟩ := List.mem_map.mp hl'
    show (annotateLine pages (fontMapOf pages.flatten) l0).isCentered = some 1 ↔ _
    unfold annotateLine
    by_cases hc : (0.4 : ℚ) < (l0.bbox.x0 + l0.bbox.x1) / 2 / pageWidthOf pages l0.pageNum ∧
        (l0.bbox.x0 + l0.bbox.x1) / 2 / pageWidthOf pages l0.pageNum < (0.6 : ℚ)
    · simp only [if_pos hc]
      exact ⟨fun _ => hc, fun _ => trivial⟩
    · simp only [if_neg hc]
      exact ⟨fun heq => absurd heq (by simp), fun hx => absurd hx hc⟩

/-- Witness for C10: the first line of `centeringDoc` sits in the engineered
output and its band test instantiates the theorem. -/
theorem centering_open_band_witness :
    centeringDocLine1 ∈ engineer_features_layout centeringDoc ∧
    (centeringDocLine1.isCentered = some 1 ↔
      ((0.4 : ℚ) < (centeringDocLine1.bbox.x0 + centeringDocLine1.bbox.x1) / 2 /
          pageWidthOf centeringDoc centeringDocLine1.pageNum ∧
       (centeringDocLine1.bbox.x0 + centeringDocLine1.bbox.x1) / 2 /
          pageWidthOf centeringDoc centeringDocLine1.pageNum < (0.6 : ℚ))) :=
  ⟨by decide, centering_open_band centeringDoc centeringDocLine1 (by decide)⟩

/-- Claim C2 (code evaluated at the failing input): with the constant-1
model both lines of `mlDoc2` are predicted headings, yet the pipeline's
stitcher absorbs the second line into the first — the bbox map it is wired
with is built from `pages_content`, whose records never receive the
`is_heading_prediction` key (it is added only to the DataFrame copy) — so
condition (d) never blocks and the final outline has one merged entry
instead of two. -/
theorem stitch_prediction_ignored :
    (mlPredictedLines mlDoc2 constOneModel).map (fun l => l.isHeadingPrediction) =
      [some 1, some 1] ∧
    (allLinesMap (engineerPages mlDoc2) 0).map (fun l => l.isHeadingPrediction) =
      [none, none] ∧
    (headingCandidates mlDoc2 constOneModel).length = 2 ∧
    process_document_definitive mlDoc2 (some constOneModel) =
      ⟨"Alpha Beta", [⟨"H1", "Alpha Beta", 0⟩]⟩ := by
  refine ⟨by decide, by decide, by decide, by decide⟩
